import Mathlib

/-!
Shallow embedding of the YTsectionDL application (src/something.py), a Qt
GUI that marks (start, end) time segments of a YouTube video and shells out
to the yt-dlp binary once per committed segment.

Modelling conventions:
- Times are Python floats in the source; they are modelled as rationals.
- Python float formatting with one decimal place (format_time) is modelled
  as round half to even to tenths, which is how printf-style rounding of
  the underlying value behaves.
- The Python string methods replace with empty replacement and split, and
  the float constructor, are modelled by the recursive functions pyRemove,
  pySplit and parseDec below.
- GUI side effects (dialogs, player commands, subprocess invocations) are
  returned as an explicit effect list.
-/

namespace YTsectionDL

/-- Decimal digit characters of a natural number, most significant digit
first, as produced by Python string interpolation of a nonnegative int. -/
def natChars (n : ℕ) : List Char :=
  if n = 0 then ['0'] else (Nat.digits 10 n).reverse.map (fun d => Char.ofNat (48 + d))

/-- String form of natChars. -/
def natStr (n : ℕ) : String := ⟨natChars n⟩

/-- Numeric value of a digit character. -/
def digitVal (c : Char) : ℕ := c.toNat - 48

/-- Parse a nonempty all-digit character list as a natural number. -/
def natParse (l : List Char) : Option ℕ :=
  if l ≠ [] ∧ l.all Char.isDigit = true then
    some (Nat.ofDigits 10 ((l.map digitVal).reverse))
  else none

/-- Model of the Python string replace method with empty replacement:
removes every left-to-right non-overlapping occurrence of sep. -/
def pyRemove (sep : List Char) : List Char → List Char
  | [] => []
  | x :: xs =>
    if sep.isPrefixOf (x :: xs) then pyRemove sep (xs.drop (sep.length - 1))
    else x :: pyRemove sep xs
termination_by l => l.length
decreasing_by
  · simp [List.length_drop]; omega
  · simp

/-- Helper for pySplit: acc is the reversed current chunk. -/
def pySplitAux (sep : List Char) : List Char → List Char → List (List Char)
  | acc, [] => [acc.reverse]
  | acc, x :: xs =>
    if sep.isPrefixOf (x :: xs) then
      acc.reverse :: pySplitAux sep [] (xs.drop (sep.length - 1))
    else pySplitAux sep (x :: acc) xs
termination_by _ l => l.length
decreasing_by
  · simp [List.length_drop]; omega
  · simp

/-- Model of Python str.split(sep) for a nonempty separator. -/
def pySplit (sep l : List Char) : List (List Char) := pySplitAux sep [] l

/-- Model of the Python float constructor on a plain unsigned decimal
numeral, possibly with a fractional part. -/
def parseDecCore (l : List Char) : Option ℚ :=
  match pySplit ['.'] l with
  | [a] => (natParse a).map (fun n => (n : ℚ))
  | [a, b] =>
    match natParse a, natParse b with
    | some w, some f => some ((w : ℚ) + (f : ℚ) / 10 ^ b.length)
    | _, _ => none
  | _ => none

/-- Model of the Python float constructor on a plain decimal numeral with
an optional sign. -/
def parseDec (l : List Char) : Option ℚ :=
  match l with
  | '-' :: rest => (parseDecCore rest).map (fun q => -q)
  | _ => parseDecCore l

/-- Round half to even, the rounding used by Python float formatting. -/
def rhe (x : ℚ) : ℤ :=
  if Int.fract x = 1 / 2 then (if ⌊x⌋ % 2 = 0 then ⌊x⌋ else ⌊x⌋ + 1) else round x

/-- The numeric value displayed for a time by format_time: the time
rounded to one decimal place. -/
def round1 (q : ℚ) : ℚ := (rhe (10 * q) : ℚ) / 10

/-- Character rendering of a rational with exactly one decimal place,
modelling the Python format specifier .1f. -/
def render1chars (q : ℚ) : List Char :=
  let n := rhe (10 * q)
  (if n < 0 then ['-'] else []) ++ natChars (n.natAbs / 10) ++ '.' :: natChars (n.natAbs % 10)

/-- YouTubeDownloader.format_time: one-decimal seconds display, or the
text shown for an unset marker. -/
def format_time (t : Option ℚ) : String :=
  match t with
  | none => "not set"
  | some q => ⟨render1chars q ++ ['s']⟩

/-- The display text added to the segments list widget by add_segment. -/
def segText (s e : ℚ) : String :=
  "Segment: " ++ format_time (some s) ++ " - " ++ format_time (some e)

/-- The parsing performed by delete_selected_segment on a display item:
strip the Segment marker, split on the dash separator, strip the seconds
unit and read each of the first two parts back as a float. Returns none
where the Python code would raise. -/
def parseSegText (txt : String) : Option (ℚ × ℚ) :=
  match pySplit " - ".data (pyRemove "Segment: ".data txt.data) with
  | a :: b :: _ =>
    match parseDec (pyRemove ['s'] a), parseDec (pyRemove ['s'] b) with
    | some s, some e => some (s, e)
    | _, _ => none
  | _ => none

/-- Smallest exponent k with d dividing 10 ^ k, when one exists. -/
def decExp (d : ℕ) : Option ℕ :=
  (List.range (d + 1)).find? (fun k => decide (d ∣ 10 ^ k))

/-- Drop trailing zero digits, keeping at least one digit. -/
def trimZeros (l : List Char) : List Char :=
  let t := (l.reverse.dropWhile (fun c => c == '0')).reverse
  if t = [] then ['0'] else t

/-- Model of Python str on a float value: exact decimal expansion with at
least one fractional digit for decimally representable values. -/
def pyStr (q : ℚ) : String :=
  match decExp q.den with
  | none => toString q.num ++ "/" ++ toString q.den
  | some k =>
    let a := q.num.natAbs
    let w := a / q.den
    let fr := a % q.den * 10 ^ k / q.den
    let fd := trimZeros (List.replicate (k - (natChars fr).length) '0' ++ natChars fr)
    (if q < 0 then "-" else "") ++ natStr w ++ "." ++ ⟨fd⟩

/-- Model of os.path.join for a posix path with two components. -/
def pathJoin (dir file : String) : String :=
  if ['/'].isPrefixOf file.data then file
  else if dir = "" ∨ dir.data.getLast? = some '/' then dir ++ file
  else dir ++ "/" ++ file

/-! State model of YouTubeDownloader and its side effects. -/

/-- A GUI side effect: a dialog, a player command, or a subprocess
invocation of the downloader binary. -/
inductive Effect where
  | warn (title msg : String)
  | critical (title msg : String)
  | pause
  | play
  | seek (t : ℚ)
  | runCmd (cmd : List String)
deriving DecidableEq

/-- The fields of YouTubeDownloader that the specified behaviour touches:
form inputs, the pending marker pair, the committed segments, the display
list, playback bookkeeping and status widgets. -/
structure AppState where
  url_input : String
  cookies_input : String
  start_time : Option ℚ
  end_time : Option ℚ
  time_segments : List (ℚ × ℚ)
  segments_list : List String
  current_time : ℚ
  current_time_input : String
  previewing : Bool
  player_ready : Bool
  download_dir : String
  resolution_mode : String
  download_type : String
  custom_format_index : ℤ
  custom_format_data : String
  start_label : String
  end_label : String
  status_label : String
  download_btn_enabled : Bool
  progress : ℤ
deriving DecidableEq

/-- State built by YouTubeDownloader.init and initUI; cwd is the result of
os.getcwd(). -/
def initState (cwd : String) : AppState where
  url_input := ""
  cookies_input := ""
  start_time := none
  end_time := none
  time_segments := []
  segments_list := []
  current_time := 0
  current_time_input := "0.0"
  previewing := false
  player_ready := false
  download_dir := cwd
  resolution_mode := "highest"
  download_type := "video"
  custom_format_index := -1
  custom_format_data := ""
  start_label := "start: not set"
  end_label := "end: not set"
  status_label := "Ready"
  download_btn_enabled := true
  progress := 0

/-- YouTubeDownloader.set_start. -/
def set_start (st : AppState) : AppState :=
  if st.player_ready then
    { st with start_time := some st.current_time,
              start_label := "start: " ++ format_time (some st.current_time) }
  else st

/-- YouTubeDownloader.set_end. -/
def set_end (st : AppState) : AppState :=
  if st.player_ready then
    { st with end_time := some st.current_time,
              end_label := "end: " ++ format_time (some st.current_time) }
  else st

/-- YouTubeDownloader.add_segment. -/
def add_segment (st : AppState) : AppState × List Effect :=
  match st.start_time, st.end_time with
  | some s, some e =>
    if s ≥ e then (st, [.warn "Error" "Invalid start/end times"])
    else
      ({ st with time_segments := st.time_segments ++ [(s, e)],
                 segments_list := st.segments_list ++ [segText s e],
                 start_time := none, end_time := none,
                 start_label := "start: not set", end_label := "end: not set" }, [])
  | _, _ => (st, [.warn "Error" "Invalid start/end times"])

/-- YouTubeDownloader.set_current_time, fed the value the page script
reported (none when the JavaScript result was null). -/
def set_current_time (st : AppState) : Option ℚ → AppState × List Effect
  | none => (st, [])
  | some tv =>
    if tv = -1 then (st, [])
    else
      let st1 := { st with current_time := tv, current_time_input := (⟨render1chars tv⟩ : String) }
      match st1.end_time with
      | some e => if st1.previewing = true ∧ e ≤ tv then ({ st1 with previewing := false }, [.pause]) else (st1, [])
      | none => (st1, [])

/-- YouTubeDownloader.preview_segment. -/
def preview_segment (st : AppState) : AppState × List Effect :=
  if st.player_ready = false then (st, [.warn "Error" "Player not ready yet"])
  else
    match st.start_time, st.end_time with
    | some s, some _ => ({ st with previewing := true }, [.seek s, .play])
    | _, _ => (st, [.warn "Error" "Set start and end times first"])

/-- YouTubeDownloader.set_player_ready. -/
def set_player_ready (st : AppState) (ready : Bool) : AppState :=
  if ready then { st with player_ready := true, status_label := "Video loaded and ready" }
  else st

/-- One iteration of the delete_selected_segment loop, acting on the text
of one selected item. Returns none where the Python code would raise. -/
def deleteOne (st : AppState) (txt : String) : Option AppState :=
  match parseSegText txt with
  | none => none
  | some p =>
    some { st with
      time_segments := if p ∈ st.time_segments then st.time_segments.erase p else st.time_segments,
      segments_list := st.segments_list.erase txt }

/-- The delete_selected_segment loop over the selected item texts. -/
def deleteList (st : AppState) : List String → Option AppState
  | [] => some st
  | t :: ts => (deleteOne st t).bind fun st1 => deleteList st1 ts

/-- YouTubeDownloader.delete_selected_segment with the texts of the
currently selected items. -/
def delete_selected_segment (st : AppState) (selected : List String) :
    Option (AppState × List Effect) :=
  if selected = [] then
    some (st, [.warn "Error" "Please select at least one segment to delete"])
  else (deleteList st selected).map (fun st1 => (st1, []))

/-! The download pipeline. -/

/-- Format string selection in start_download. Any mode other than
highest takes the custom branch, as in the source. -/
def formatStrOf (mode dtype data : String) : String :=
  if mode = "highest" then
    if dtype = "video" then "best[height<=1080]" else "bestaudio"
  else
    if dtype = "video" then data ++ "+bestaudio/best" else data

/-- The argument vector built for one segment in the start_download
loop; idx is the 1-based position of the segment. -/
def mkCmd (url cookies fstr dir : String) (idx : ℕ) (seg : ℚ × ℚ) : List String :=
  ["yt-dlp", url]
  ++ (if cookies ≠ "" then ["--cookies", cookies] else [])
  ++ ["--download-sections", "*" ++ pyStr seg.1 ++ "-" ++ pyStr seg.2]
  ++ ["-f", fstr]
  ++ ["-o", pathJoin dir ("output" ++ natStr idx ++ ".%(ext)s")]

/-- The subprocess loop of start_download: invokes the runner on each
segment command in order, stopping after the first nonzero exit status.
Returns the invoked commands, the number of zero-status invocations, and
the stderr of the failing invocation when there is one. -/
def runSegs (runner : List String → ℤ × String) (mk : ℕ → ℚ × ℚ → List String) :
    ℕ → List (ℚ × ℚ) → List (List String) × ℕ × Option String
  | _, [] => ([], 0, none)
  | idx, seg :: rest =>
    let cmd := mk idx seg
    let r := runner cmd
    if r.1 ≠ 0 then ([cmd], 0, some r.2)
    else
      let res := runSegs runner mk (idx + 1) rest
      (cmd :: res.1, res.2.1 + 1, res.2.2)

/-- The full list of per-segment commands start_download computes from
the current state. -/
def plannedCmds (st : AppState) : List (List String) :=
  (List.enumFrom 1 st.time_segments).map fun p =>
    mkCmd st.url_input st.cookies_input
      (formatStrOf st.resolution_mode st.download_type st.custom_format_data)
      st.download_dir p.1 p.2

/-- YouTubeDownloader.start_download; runner models subprocess.run and
yields the exit status and stderr of one invocation. -/
def start_download (st : AppState) (runner : List String → ℤ × String) :
    AppState × List Effect :=
  if st.url_input = "" ∨ st.time_segments = [] then
    (st, [.warn "Error" "Missing URL or segments"])
  else if st.resolution_mode = "custom" ∧ st.custom_format_index = -1 then
    (st, [.warn "Error" "Select a custom format"])
  else
    let fstr := formatStrOf st.resolution_mode st.download_type st.custom_format_data
    let total := st.time_segments.length
    let r := runSegs runner (mkCmd st.url_input st.cookies_input fstr st.download_dir) 1 st.time_segments
    match r.2.2 with
    | none =>
      ({ st with status_label := "Download completed",
                 time_segments := [], segments_list := [],
                 progress := ((r.2.1 * 100) / total : ℕ),
                 download_btn_enabled := true },
       r.1.map Effect.runCmd)
    | some err =>
      ({ st with status_label := "Error: " ++ err,
                 progress := ((r.2.1 * 100) / total : ℕ),
                 download_btn_enabled := true },
       r.1.map Effect.runCmd ++ [.critical "Download Error" err])

/-- The subprocess invocations among a list of effects. -/
def invokedCmds (effs : List Effect) : List (List String) :=
  effs.filterMap fun e =>
    match e with
    | .runCmd c => some c
    | _ => none

/-! The format fetching worker. -/

/-- The parts of a format dictionary read by the application. -/
structure Fmt where
  format_id : String
  format_note : String
  ext : String
deriving DecidableEq

/-- The extractor result dictionary: formats is absent when the extractor
reports none. -/
structure ExtractInfo where
  formats : Option (List Fmt)
deriving DecidableEq

/-- The signal emitted by the worker back to the UI thread. -/
inductive FetchResult where
  | completed (formats : List Fmt)
  | error (msg : String)
deriving DecidableEq

namespace FetchFormatsThread

/-- FetchFormatsThread.run: extract is the outcome of the external
yt_dlp extract_info call, an exception message on failure. -/
def run (extract : Except String ExtractInfo) : FetchResult :=
  match extract with
  | .ok info => .completed (info.formats.getD [])
  | .error e => .error e

end FetchFormatsThread

/-! Reachability: the transition system generated by the UI handlers. -/

/-- States reachable from a fresh window by the modelled UI handlers and
arbitrary user edits of the plain input widgets. -/
inductive Reachable : AppState → Prop where
  | init (cwd : String) : Reachable (initState cwd)
  | editUrl {st} (s : String) : Reachable st → Reachable { st with url_input := s }
  | editCookies {st} (s : String) : Reachable st → Reachable { st with cookies_input := s }
  | chooseDir {st} (d : String) : d ≠ "" → Reachable st →
      Reachable { st with download_dir := d }
  | selectMode {st} (m : String) : m = "highest" ∨ m = "custom" → Reachable st →
      Reachable { st with resolution_mode := m }
  | selectType {st} (t : String) : t = "video" ∨ t = "audio" → Reachable st →
      Reachable { st with download_type := t }
  | selectFormat {st} (i : ℤ) (d : String) : -1 ≤ i → Reachable st →
      Reachable { st with custom_format_index := i, custom_format_data := d }
  | playerReady {st} (b : Bool) : Reachable st → Reachable (set_player_ready st b)
  | loadReset {st} : Reachable st →
      Reachable { st with player_ready := false, status_label := "Loading video..." }
  | timeUpdate {st} (t : Option ℚ) : Reachable st → Reachable (set_current_time st t).1
  | markStart {st} : Reachable st → Reachable (set_start st)
  | markEnd {st} : Reachable st → Reachable (set_end st)
  | addSeg {st} : Reachable st → Reachable (add_segment st).1
  | previewStep {st} : Reachable st → Reachable (preview_segment st).1
  | deleteSel {st st1} (sel : List String) (effs : List Effect) :
      Reachable st → delete_selected_segment st sel = some (st1, effs) → Reachable st1
  | download {st} (runner : List String → ℤ × String) :
      Reachable st → Reachable (start_download st runner).1

/-! Lemmas about digit rendering and parsing. -/

theorem natChars_ne_nil (n : ℕ) : natChars n ≠ [] := by
  unfold natChars
  split
  · simp
  · simp [Nat.digits_ne_nil_iff_ne_zero, *]

theorem mem_natChars_isDigit {n : ℕ} {c : Char} (h : c ∈ natChars n) :
    c.isDigit = true := by
  unfold natChars at h
  split at h
  · simp at h
    subst h
    decide
  · simp at h
    obtain ⟨d, hd, rfl⟩ := h
    have hlt : d < 10 := Nat.digits_lt_base (by norm_num) hd
    interval_cases d <;> decide

theorem digitVal_char {d : ℕ} (h : d < 10) : digitVal (Char.ofNat (48 + d)) = d := by
  interval_cases d <;> decide

theorem natParse_natChars (n : ℕ) : natParse (natChars n) = some n := by
  have hdig : (natChars n).all Char.isDigit = true := by
    rw [List.all_eq_true]
    intro c hc
    exact mem_natChars_isDigit hc
  unfold natParse
  rw [if_pos ⟨natChars_ne_nil n, hdig⟩]
  congr 1
  unfold natChars
  split
  · subst n
    decide
  · simp only [List.map_reverse, List.reverse_reverse, List.map_map]
    have hmap : (Nat.digits 10 n).map (digitVal ∘ fun d => Char.ofNat (48 + d)) =
        Nat.digits 10 n := by
      have : ∀ d ∈ Nat.digits 10 n, (digitVal ∘ fun d => Char.ofNat (48 + d)) d = id d :=
        fun d hd => digitVal_char (Nat.digits_lt_base (by norm_num) hd)
      rw [List.map_congr_left this, List.map_id]
    rw [hmap, Nat.ofDigits_digits]

theorem natChars_injective {a b : ℕ} (h : natChars a = natChars b) : a = b := by
  have := natParse_natChars a
  rw [h, natParse_natChars b] at this
  exact (Option.some_injective _ this).symm

theorem natChars_single {d : ℕ} (h : d < 10) : natChars d = [Char.ofNat (48 + d)] := by
  rcases Nat.eq_zero_or_pos d with rfl | hpos
  · decide
  · unfold natChars
    rw [if_neg (Nat.pos_iff_ne_zero.mp hpos), Nat.digits_def' (by norm_num : (1 : ℕ) < 10) hpos,
        Nat.mod_eq_of_lt h, Nat.div_eq_of_lt h, Nat.digits_zero]
    simp

/-! Character classification facts used by the parsing lemmas. -/

theorem isDigit_ne {c : Char} (h : c.isDigit = true) :
    c ≠ 'S' ∧ c ≠ ' ' ∧ c ≠ 's' ∧ c ≠ '.' ∧ c ≠ '-' := by
  refine ⟨?_, ?_, ?_, ?_, ?_⟩ <;> (rintro rfl; exact absurd h (by decide))

/-! Lemmas about pyRemove and pySplit on occurrence-free text. -/

theorem isPrefixOf_append_self (l r : List Char) : l.isPrefixOf (l ++ r) = true := by
  induction l with
  | nil => simp [List.isPrefixOf]
  | cons x xs ih => simp [List.isPrefixOf, ih]

theorem isPrefixOf_cons_ne {h x : Char} {tl xs : List Char} (hne : h ≠ x) :
    (h :: tl).isPrefixOf (x :: xs) = false := by
  simp [List.isPrefixOf]
  intro hc
  exact absurd hc hne

theorem pyRemove_no_occ {h : Char} (tl : List Char) {l : List Char} (hno : h ∉ l) :
    pyRemove (h :: tl) l = l := by
  induction l with
  | nil => simp [pyRemove]
  | cons x xs ih =>
    have hx : h ≠ x := fun hc => hno (hc ▸ List.mem_cons_self x xs)
    rw [pyRemove, if_neg (by simp [isPrefixOf_cons_ne hx])]
    rw [ih (fun hc => hno (List.mem_cons_of_mem x hc))]

theorem pyRemove_strip {h : Char} (tl : List Char) {rest : List Char} (hno : h ∉ rest) :
    pyRemove (h :: tl) ((h :: tl) ++ rest) = rest := by
  rw [List.cons_append, pyRemove, if_pos]
  · have : (tl ++ rest).drop ((h :: tl).length - 1) = rest := by
      simp [List.drop_left]
    rw [this, pyRemove_no_occ tl hno]
  · rw [← List.cons_append]
    exact isPrefixOf_append_self (h :: tl) rest

theorem pyRemove_trailing {c : Char} {l : List Char} (hno : c ∉ l) :
    pyRemove [c] (l ++ [c]) = l := by
  induction l with
  | nil =>
    have hp : [c].isPrefixOf [c] = true := by
      simp [List.isPrefixOf]
    rw [List.nil_append, pyRemove, if_pos hp]
    simp [pyRemove]
  | cons x xs ih =>
    have hx : c ≠ x := fun hc => hno (hc ▸ List.mem_cons_self x xs)
    rw [List.cons_append, pyRemove, if_neg (by simp [isPrefixOf_cons_ne hx])]
    rw [ih (fun hc => hno (List.mem_cons_of_mem x hc))]

theorem pySplitAux_no_occ {h : Char} (tl : List Char) {l : List Char} (acc : List Char)
    (hno : h ∉ l) : pySplitAux (h :: tl) acc l = [acc.reverse ++ l] := by
  induction l generalizing acc with
  | nil => simp [pySplitAux]
  | cons x xs ih =>
    have hx : h ≠ x := fun hc => hno (hc ▸ List.mem_cons_self x xs)
    rw [pySplitAux, if_neg (by simp [isPrefixOf_cons_ne hx])]
    rw [ih (x :: acc) (fun hc => hno (List.mem_cons_of_mem x hc))]
    simp

theorem pySplitAux_shift {h : Char} (tl : List Char) {a : List Char} (acc rest : List Char)
    (hno : h ∉ a) :
    pySplitAux (h :: tl) acc (a ++ rest) = pySplitAux (h :: tl) (a.reverse ++ acc) rest := by
  induction a generalizing acc with
  | nil => simp
  | cons x xs ih =>
    have hx : h ≠ x := fun hc => hno (hc ▸ List.mem_cons_self x xs)
    rw [List.cons_append, pySplitAux, if_neg (by simp [isPrefixOf_cons_ne hx])]
    rw [ih (x :: acc) (fun hc => hno (List.mem_cons_of_mem x hc))]
    simp

theorem pySplit_sep_append {h : Char} (tl : List Char) {a b : List Char}
    (ha : h ∉ a) (hb : h ∉ b) :
    pySplit (h :: tl) (a ++ (h :: tl) ++ b) = [a, b] := by
  unfold pySplit
  rw [List.append_assoc, pySplitAux_shift tl [] ((h :: tl) ++ b) ha]
  rw [List.cons_append, pySplitAux, if_pos]
  · have hdrop : (tl ++ b).drop ((h :: tl).length - 1) = b := by
      simp [List.drop_left]
    rw [hdrop, pySplitAux_no_occ tl [] hb]
    simp
  · rw [← List.cons_append]
    exact isPrefixOf_append_self (h :: tl) b

/-! Lemmas about rounding to one decimal place. -/

theorem rhe_intCast (n : ℤ) : rhe (n : ℚ) = n := by
  unfold rhe
  rw [Int.fract_intCast, if_neg (by norm_num), round_intCast]

theorem round1_eq_self_iff (q : ℚ) : round1 q = q ↔ (10 * q).den = 1 := by
  unfold round1
  constructor
  · intro h
    have h10 : ((rhe (10 * q) : ℚ)) = 10 * q := by
      field_simp at h
      linarith [h]
    rw [← h10, Rat.den_intCast]
  · intro hden
    have hint : ((10 * q).num : ℚ) = 10 * q := by
      conv_rhs => rw [← Rat.num_div_den (10 * q)]
      rw [hden]
      simp
    have : rhe (10 * q) = (10 * q).num := by
      calc rhe (10 * q) = rhe (((10 * q).num : ℤ) : ℚ) := by rw [hint]
        _ = (10 * q).num := rhe_intCast _
    rw [this, hint]
    ring

/-! Correctness of parseDec on the output of render1chars. -/

theorem mem_natChars_props {n : ℕ} {c : Char} (h : c ∈ natChars n) :
    c ≠ 'S' ∧ c ≠ ' ' ∧ c ≠ 's' ∧ c ≠ '.' ∧ c ≠ '-' :=
  isDigit_ne (mem_natChars_isDigit h)

theorem mem_render1chars {q : ℚ} {c : Char} (h : c ∈ render1chars q) :
    c ≠ 'S' ∧ c ≠ ' ' ∧ c ≠ 's' := by
  unfold render1chars at h
  simp only [List.mem_append, List.mem_cons] at h
  rcases h with (h | h) | h | h
  · split at h <;> simp at h
    subst h
    refine ⟨by decide, by decide, by decide⟩
  · exact ⟨(mem_natChars_props h).1, (mem_natChars_props h).2.1, (mem_natChars_props h).2.2.1⟩
  · subst h
    refine ⟨by decide, by decide, by decide⟩
  · exact ⟨(mem_natChars_props h).1, (mem_natChars_props h).2.1, (mem_natChars_props h).2.2.1⟩

theorem dot_not_mem_natChars (n : ℕ) : '.' ∉ natChars n :=
  fun h => (mem_natChars_props h).2.2.2.1 rfl

theorem parseDecCore_digits (w f : ℕ) (hf : f < 10) :
    parseDecCore (natChars w ++ '.' :: natChars f) = some ((w : ℚ) + (f : ℚ) / 10) := by
  have hsplit : pySplit ['.'] (natChars w ++ '.' :: natChars f) = [natChars w, natChars f] := by
    have : natChars w ++ '.' :: natChars f = natChars w ++ ['.'] ++ natChars f := by simp
    rw [this]
    exact pySplit_sep_append [] (dot_not_mem_natChars w) (dot_not_mem_natChars f)
  unfold parseDecCore
  rw [hsplit]
  simp only [natParse_natChars]
  have hlen : (natChars f).length = 1 := by
    rw [natChars_single hf]
    rfl
  rw [hlen]
  norm_num

theorem natCast_div_mod_tenths (a : ℕ) :
    ((a / 10 : ℕ) : ℚ) + ((a % 10 : ℕ) : ℚ) / 10 = (a : ℚ) / 10 := by
  field_simp
  norm_cast
  omega

theorem parseDec_render1 (q : ℚ) : parseDec (render1chars q) = some (round1 q) := by
  have hmod : ((rhe (10 * q)).natAbs) % 10 < 10 := Nat.mod_lt _ (by norm_num)
  have hcore : parseDecCore
      (natChars ((rhe (10 * q)).natAbs / 10) ++ '.' :: natChars ((rhe (10 * q)).natAbs % 10)) =
      some (((rhe (10 * q)).natAbs : ℚ) / 10) := by
    rw [parseDecCore_digits _ _ hmod]
    rw [natCast_div_mod_tenths]
  by_cases hn : rhe (10 * q) < 0
  · have habs : ((rhe (10 * q)).natAbs : ℚ) = -((rhe (10 * q) : ℤ) : ℚ) := by
      rw [Int.cast_natAbs, abs_of_neg hn]
      push_cast
      ring
    simp only [render1chars]
    rw [if_pos hn, List.singleton_append]
    rw [parseDec.eq_def]
    split
    · rename_i rest heq
      injection heq with h1 h2
      rw [← h2]
      change Option.map (fun q => -q)
        (parseDecCore (natChars ((rhe (10 * q)).natAbs / 10) ++
          '.' :: natChars ((rhe (10 * q)).natAbs % 10))) = some (round1 q)
      rw [hcore, habs]
      unfold round1
      simp only [Option.map_some']
      congr 1
      ring
    · rename_i hnot
      exact absurd rfl (hnot _)
  · have habs : ((rhe (10 * q)).natAbs : ℚ) = ((rhe (10 * q) : ℤ) : ℚ) := by
      rw [Int.cast_natAbs, abs_of_nonneg (not_lt.mp hn)]
    simp only [render1chars]
    rw [if_neg hn]
    obtain ⟨c, cs, hc⟩ : ∃ c cs, natChars ((rhe (10 * q)).natAbs / 10) = c :: cs := by
      cases h : natChars ((rhe (10 * q)).natAbs / 10) with
      | nil => exact absurd h (natChars_ne_nil _)
      | cons c cs => exact ⟨c, cs, rfl⟩
    have hcd : c ≠ '-' :=
      (mem_natChars_props (hc ▸ List.mem_cons_self c cs)).2.2.2.2
    rw [List.nil_append, parseDec.eq_def]
    split
    · rename_i rest heq
      rw [hc, List.cons_append, List.cons_eq_cons] at heq
      exact absurd heq.1 hcd
    · rw [hcore, habs]
      unfold round1
      rfl

theorem S_not_mem_part (q : ℚ) : 'S' ∉ render1chars q ++ ['s'] := by
  intro h
  rcases List.mem_append.mp h with h | h
  · exact (mem_render1chars h).1 rfl
  · rw [List.mem_singleton] at h
    exact absurd h (by decide)

theorem space_not_mem_part (q : ℚ) : ' ' ∉ render1chars q ++ ['s'] := by
  intro h
  rcases List.mem_append.mp h with h | h
  · exact (mem_render1chars h).2.1 rfl
  · rw [List.mem_singleton] at h
    exact absurd h (by decide)

theorem s_not_mem_render (q : ℚ) : 's' ∉ render1chars q :=
  fun h => (mem_render1chars h).2.2 rfl

/-- Parsing a display text produced by add_segment recovers exactly the
one-decimal roundings of the segment endpoints. -/
theorem parseSegText_segText (s e : ℚ) :
    parseSegText (segText s e) = some (round1 s, round1 e) := by
  have hdata : (segText s e).data =
      "Segment: ".data ++
        ((render1chars s ++ ['s']) ++ (" - ".data ++ (render1chars e ++ ['s']))) := by
    unfold segText format_time
    simp [String.data_append, List.append_assoc]
  unfold parseSegText
  rw [hdata]
  have hrm : pyRemove "Segment: ".data
      ("Segment: ".data ++ ((render1chars s ++ ['s']) ++ (" - ".data ++ (render1chars e ++ ['s'])))) =
      (render1chars s ++ ['s']) ++ (" - ".data ++ (render1chars e ++ ['s'])) := by
    rw [show "Segment: ".data = 'S' :: "egment: ".data from rfl]
    apply pyRemove_strip
    intro h
    rcases List.mem_append.mp h with h | h
    · exact S_not_mem_part s h
    · rcases List.mem_append.mp h with h | h
      · simp at h
      · exact S_not_mem_part e h
  rw [hrm]
  have hsplit : pySplit " - ".data
      ((render1chars s ++ ['s']) ++ (" - ".data ++ (render1chars e ++ ['s']))) =
      [render1chars s ++ ['s'], render1chars e ++ ['s']] := by
    rw [← List.append_assoc]
    rw [show " - ".data = ' ' :: "- ".data from rfl]
    exact pySplit_sep_append _ (space_not_mem_part s) (space_not_mem_part e)
  rw [hsplit]
  have hs' : pyRemove ['s'] (render1chars s ++ ['s']) = render1chars s :=
    pyRemove_trailing (s_not_mem_render s)
  have he' : pyRemove ['s'] (render1chars e ++ ['s']) = render1chars e :=
    pyRemove_trailing (s_not_mem_render e)
  simp only [hs', he', parseDec_render1]

/-! Lemmas about the download loop. -/

theorem runSegs_all_ok (runner : List String → ℤ × String) (mk : ℕ → ℚ × ℚ → List String) :
    ∀ (segs : List (ℚ × ℚ)) (i : ℕ),
      (∀ c ∈ (List.enumFrom i segs).map (fun p => mk p.1 p.2), (runner c).1 = 0) →
      runSegs runner mk i segs =
        ((List.enumFrom i segs).map (fun p => mk p.1 p.2), segs.length, none) := by
  intro segs
  induction segs with
  | nil => intro i _; rfl
  | cons sg rest ih =>
    intro i h
    have h0 : (runner (mk i sg)).1 = 0 := by
      apply h
      simp [List.enumFrom_cons]
    have hrest : ∀ c ∈ (List.enumFrom (i + 1) rest).map (fun p => mk p.1 p.2), (runner c).1 = 0 := by
      intro c hc
      apply h
      simp [List.enumFrom_cons]
      right
      simpa using hc
    rw [runSegs]
    simp only [if_neg (not_not_intro h0)]
    rw [ih (i + 1) hrest]
    simp [List.enumFrom_cons]

theorem runSegs_first_fail (runner : List String → ℤ × String) (mk : ℕ → ℚ × ℚ → List String) :
    ∀ (segs : List (ℚ × ℚ)) (i k : ℕ),
      k < segs.length →
      (∀ c ∈ ((List.enumFrom i segs).map (fun p => mk p.1 p.2)).take k, (runner c).1 = 0) →
      (runner (((List.enumFrom i segs).map (fun p => mk p.1 p.2)).getD k [])).1 ≠ 0 →
      runSegs runner mk i segs =
        (((List.enumFrom i segs).map (fun p => mk p.1 p.2)).take (k + 1), k,
         some (runner (((List.enumFrom i segs).map (fun p => mk p.1 p.2)).getD k [])).2) := by
  intro segs
  induction segs with
  | nil => intro i k hk; exact absurd hk (by simp)
  | cons sg rest ih =>
    intro i k hk htake hfail
    cases k with
    | zero =>
      simp only [List.enumFrom_cons, List.map_cons, List.getD_cons_zero] at hfail ⊢
      rw [runSegs]
      simp only [if_pos hfail]
      simp
    | succ k =>
      have h0 : (runner (mk i sg)).1 = 0 := by
        apply htake
        simp [List.enumFrom_cons]
      have hk' : k < rest.length := by simpa using hk
      have htake' : ∀ c ∈ ((List.enumFrom (i + 1) rest).map (fun p => mk p.1 p.2)).take k,
          (runner c).1 = 0 := by
        intro c hc
        apply htake
        simp only [List.enumFrom_cons, List.map_cons, List.take_succ_cons]
        exact List.mem_cons_of_mem _ hc
      have hfail' : (runner (((List.enumFrom (i + 1) rest).map
          (fun p => mk p.1 p.2)).getD k [])).1 ≠ 0 := by
        simpa only [List.enumFrom_cons, List.map_cons, List.getD_cons_succ] using hfail
      rw [runSegs]
      simp only [if_neg (not_not_intro h0)]
      rw [ih (i + 1) k hk' htake' hfail']
      simp [List.enumFrom_cons]

theorem invokedCmds_map_runCmd (l : List (List String)) :
    invokedCmds (l.map Effect.runCmd) = l := by
  induction l with
  | nil => rfl
  | cons c cs ih =>
    simp only [invokedCmds, List.map_cons, List.filterMap_cons] at ih ⊢
    rw [ih]

theorem invokedCmds_append (a b : List Effect) :
    invokedCmds (a ++ b) = invokedCmds a ++ invokedCmds b := by
  simp [invokedCmds, List.filterMap_append]

/-! Projection lemmas: which handlers leave the committed segments alone. -/

theorem set_start_time_segments (st : AppState) :
    (set_start st).time_segments = st.time_segments := by
  unfold set_start
  split <;> rfl

theorem set_end_time_segments (st : AppState) :
    (set_end st).time_segments = st.time_segments := by
  unfold set_end
  split <;> rfl

theorem set_player_ready_time_segments (st : AppState) (b : Bool) :
    (set_player_ready st b).time_segments = st.time_segments := by
  unfold set_player_ready
  split <;> rfl

theorem set_current_time_time_segments (st : AppState) (t : Option ℚ) :
    (set_current_time st t).1.time_segments = st.time_segments := by
  cases t with
  | none => rfl
  | some tv =>
    rw [set_current_time]
    split
    · rfl
    · dsimp only
      split
      · split <;> rfl
      · rfl

theorem preview_segment_time_segments (st : AppState) :
    (preview_segment st).1.time_segments = st.time_segments := by
  unfold preview_segment
  split
  · rfl
  · split <;> rfl

theorem add_segment_time_segments (st : AppState) :
    ∀ p ∈ (add_segment st).1.time_segments, p ∈ st.time_segments ∨ p.1 < p.2 := by
  unfold add_segment
  intro p hp
  split at hp
  · rename_i s e heq
    split at hp
    · exact Or.inl hp
    · rename_i hse
      simp only at hp
      rcases List.mem_append.mp hp with h | h
      · exact Or.inl h
      · rw [List.mem_singleton] at h
        subst h
        exact Or.inr (lt_of_not_ge hse)
  · exact Or.inl hp

theorem deleteOne_time_segments {st st1 : AppState} {txt : String}
    (h : deleteOne st txt = some st1) :
    ∀ p ∈ st1.time_segments, p ∈ st.time_segments := by
  unfold deleteOne at h
  split at h
  · exact absurd h (by simp)
  · rename_i pr heq
    intro p hp
    injection h with h
    rw [← h] at hp
    simp only at hp
    split at hp
    · exact (List.erase_sublist pr st.time_segments).mem hp
    · exact hp

theorem deleteList_time_segments :
    ∀ (sel : List String) (st st1 : AppState), deleteList st sel = some st1 →
      ∀ p ∈ st1.time_segments, p ∈ st.time_segments := by
  intro sel
  induction sel with
  | nil =>
    intro st st1 h
    injection h with h
    rw [← h]
    exact fun p hp => hp
  | cons t ts ih =>
    intro st st1 h
    rw [deleteList] at h
    cases hd : deleteOne st t with
    | none => rw [hd] at h; exact absurd h (by simp)
    | some st2 =>
      rw [hd] at h
      simp only [Option.some_bind] at h
      intro p hp
      exact deleteOne_time_segments hd p (ih st2 st1 h p hp)

theorem start_download_time_segments (st : AppState) (runner : List String → ℤ × String) :
    ∀ p ∈ (start_download st runner).1.time_segments, p ∈ st.time_segments := by
  unfold start_download
  intro p hp
  split at hp
  · exact hp
  · split at hp
    · exact hp
    · dsimp only at hp
      split at hp
      · simp at hp
      · exact hp

/-! Claim theorems. -/

/-- C1: every (start, end) pair in the committed segment list of any
reachable state satisfies start < end: add_segment appends a pair only
when both markers are set and start < end, and every other handler leaves
the list unchanged or removes elements. -/
theorem c1_segment_invariant (st : AppState) (h : Reachable st) :
    ∀ p ∈ st.time_segments, p.1 < p.2 := by
  induction h with
  | init cwd => intro p hp; simp [initState] at hp
  | editUrl s h ih => exact ih
  | editCookies s h ih => exact ih
  | chooseDir d hd h ih => exact ih
  | selectMode m hm h ih => exact ih
  | selectType t ht h ih => exact ih
  | selectFormat i d hi h ih => exact ih
  | playerReady b h ih => simpa only [set_player_ready_time_segments] using ih
  | loadReset h ih => exact ih
  | timeUpdate t h ih => simpa only [set_current_time_time_segments] using ih
  | markStart h ih => simpa only [set_start_time_segments] using ih
  | markEnd h ih => simpa only [set_end_time_segments] using ih
  | addSeg h ih =>
    intro p hp
    rcases add_segment_time_segments _ p hp with hm | hlt
    · exact ih p hm
    · exact hlt
  | previewStep h ih => simpa only [preview_segment_time_segments] using ih
  | deleteSel sel effs h hdel ih =>
    intro p hp
    unfold delete_selected_segment at hdel
    split at hdel
    · cases hdel
      exact ih p hp
    · rcases Option.map_eq_some'.mp hdel with ⟨st2, hst2, heq⟩
      injection heq with heq1 heq2
      subst heq1
      exact ih p (deleteList_time_segments sel _ _ hst2 p hp)
  | download runner h ih =>
    intro p hp
    exact ih p (start_download_time_segments _ _ p hp)

/-- A concrete reachable state holding one committed segment, used as the
evaluation point for the invariant claim. -/
def demoState : AppState :=
  (add_segment (set_end
    (set_current_time (set_start
      (set_current_time (set_player_ready (initState "/downloads") true) (some 1)).1)
      (some 2)).1)).1

theorem demoState_reachable : Reachable demoState :=
  Reachable.addSeg (Reachable.markEnd (Reachable.timeUpdate (some 2)
    (Reachable.markStart (Reachable.timeUpdate (some 1)
      (Reachable.playerReady true (Reachable.init "/downloads"))))))

theorem c1_segment_invariant_witness :
    ((1 : ℚ), (2 : ℚ)) ∈ demoState.time_segments ∧ ((1 : ℚ), (2 : ℚ)).1 < ((1 : ℚ), (2 : ℚ)).2 :=
  ⟨by decide, c1_segment_invariant demoState demoState_reachable _ (by decide)⟩

/-- C5: the format fetching worker reports exactly one of two outcomes:
on success the completed signal with the extracted format list (empty
when the extractor reports none), and on an exception the error signal
with the message string; never both. -/
theorem c5_fetch_exactly_one (extract : Except String ExtractInfo) :
    (∀ info, extract = Except.ok info →
      FetchFormatsThread.run extract = FetchResult.completed (info.formats.getD []))
  ∧ (∀ msg, extract = Except.error msg →
      FetchFormatsThread.run extract = FetchResult.error msg)
  ∧ ∀ fs msg, ¬(FetchFormatsThread.run extract = FetchResult.completed fs
      ∧ FetchFormatsThread.run extract = FetchResult.error msg) := by
  refine ⟨?_, ?_, ?_⟩
  · rintro info rfl; rfl
  · rintro msg rfl; rfl
  · rintro fs msg ⟨h1, h2⟩
    rw [h1] at h2
    exact FetchResult.noConfusion h2

theorem c5_fetch_exactly_one_witness :
    FetchFormatsThread.run (Except.ok ⟨some []⟩) = FetchResult.completed [] :=
  (c5_fetch_exactly_one (Except.ok ⟨some []⟩)).1 ⟨some []⟩ rfl

/-- C7: set_start and set_end overwrite their marker with the current
playback time exactly when the player is ready, and a successful
add_segment resets both pending markers to none and both labels to the
not set text. -/
theorem c7_marker_lifecycle (st : AppState) (s e : ℚ)
    (hs : st.start_time = some s) (he : st.end_time = some e) (hlt : s < e) :
    ((set_start st).start_time = if st.player_ready then some st.current_time else st.start_time)
  ∧ ((set_end st).end_time = if st.player_ready then some st.current_time else st.end_time)
  ∧ (add_segment st).1.start_time = none ∧ (add_segment st).1.end_time = none
  ∧ (add_segment st).1.start_label = "start: not set"
  ∧ (add_segment st).1.end_label = "end: not set" := by
  have hadd : (add_segment st).1 =
      { st with time_segments := st.time_segments ++ [(s, e)],
                segments_list := st.segments_list ++ [segText s e],
                start_time := none, end_time := none,
                start_label := "start: not set", end_label := "end: not set" } := by
    unfold add_segment
    rw [hs, he]
    simp only [if_neg (not_le.mpr hlt)]
  refine ⟨?_, ?_, ?_, ?_, ?_, ?_⟩
  · unfold set_start; split <;> rfl
  · unfold set_end; split <;> rfl
  · rw [hadd]
  · rw [hadd]
  · rw [hadd]
  · rw [hadd]

/-- State used to evaluate the marker pair claim: player ready, pending
pair (1, 2). -/
def markerState : AppState :=
  { initState "/downloads" with player_ready := true, start_time := some 1, end_time := some 2 }

theorem c7_marker_lifecycle_witness :
    markerState.start_time = some 1 ∧
    ((set_start markerState).start_time =
        if markerState.player_ready then some markerState.current_time
        else markerState.start_time)
    ∧ ((set_end markerState).end_time =
        if markerState.player_ready then some markerState.current_time
        else markerState.end_time)
    ∧ (add_segment markerState).1.start_time = none
    ∧ (add_segment markerState).1.end_time = none
    ∧ (add_segment markerState).1.start_label = "start: not set"
    ∧ (add_segment markerState).1.end_label = "end: not set" :=
  ⟨rfl, c7_marker_lifecycle markerState 1 2 rfl rfl (by norm_num)⟩

/-- C8: while previewing, a reported time at or past the end marker makes
set_current_time pause the player and clear the previewing flag, and when
the previewing flag is off no time update ever issues a pause. -/
theorem c8_preview_stops_at_end (st : AppState) (e t : ℚ)
    (hp : st.previewing = true) (he : st.end_time = some e) (ht : t ≠ -1) (hge : e ≤ t) :
    ((set_current_time st (some t)).1.previewing = false
     ∧ (set_current_time st (some t)).2 = [Effect.pause])
  ∧ ∀ (st1 : AppState), st1.previewing = false → ∀ u : Option ℚ,
      Effect.pause ∉ (set_current_time st1 u).2 := by
  constructor
  · rw [set_current_time]
    rw [if_neg ht]
    dsimp only
    rw [he]
    dsimp only
    rw [if_pos ⟨hp, hge⟩]
    exact ⟨rfl, rfl⟩
  · intro st1 hprev u
    cases u with
    | none => rw [set_current_time]; simp
    | some tv =>
      rw [set_current_time]
      split
      · simp
      · dsimp only
        split
        · rw [if_neg (by rw [hprev]; rintro ⟨hc, -⟩; exact Bool.noConfusion hc)]
          simp
        · simp

/-- State used to evaluate the preview stop claim: previewing with end
marker 2 and a reported time 3. -/
def previewState : AppState :=
  { initState "/downloads" with
    player_ready := true
    previewing := true
    start_time := some 1
    end_time := some 2 }

theorem c8_preview_stops_at_end_witness :
    previewState.previewing = true ∧
    ((set_current_time previewState (some 3)).1.previewing = false
     ∧ (set_current_time previewState (some 3)).2 = [Effect.pause])
    ∧ ∀ (st1 : AppState), st1.previewing = false → ∀ u : Option ℚ,
        Effect.pause ∉ (set_current_time st1 u).2 :=
  ⟨rfl, c8_preview_stops_at_end previewState 2 3 rfl rfl (by norm_num) (by norm_num)⟩

/-- C10: start_download returns before launching any subprocess and with
the state unchanged when the URL or the segment list is missing, or when
custom mode has no selected format; in each case only the matching
warning dialog is produced. -/
theorem c10_precondition_guards (st : AppState) (runner : List String → ℤ × String) :
    ((st.url_input = "" ∨ st.time_segments = []) →
      start_download st runner = (st, [Effect.warn "Error" "Missing URL or segments"]))
  ∧ (st.url_input ≠ "" → st.time_segments ≠ [] → st.resolution_mode = "custom" →
      st.custom_format_index = -1 →
      start_download st runner = (st, [Effect.warn "Error" "Select a custom format"])) := by
  constructor
  · intro h
    unfold start_download
    rw [if_pos h]
  · intro h1 h2 h3 h4
    unfold start_download
    rw [if_neg (by rintro (hc | hc); exacts [h1 hc, h2 hc]), if_pos ⟨h3, h4⟩]

theorem c10_precondition_guards_witness :
    (initState "/downloads").url_input = "" ∧
    start_download (initState "/downloads") (fun _ => (0, "")) =
      (initState "/downloads", [Effect.warn "Error" "Missing URL or segments"]) :=
  ⟨rfl, (c10_precondition_guards (initState "/downloads") (fun _ => (0, ""))).1 (Or.inl rfl)⟩

/-! Characterization of start_download past its guards. -/

theorem plannedCmds_length (st : AppState) :
    (plannedCmds st).length = st.time_segments.length := by
  simp [plannedCmds]

theorem start_download_success (st : AppState) (runner : List String → ℤ × String)
    (h1 : st.url_input ≠ "") (h2 : st.time_segments ≠ [])
    (h3 : ¬(st.resolution_mode = "custom" ∧ st.custom_format_index = -1))
    (hok : ∀ c ∈ plannedCmds st, (runner c).1 = 0) :
    start_download st runner =
      ({ st with status_label := "Download completed", time_segments := [], segments_list := [],
                 progress := ((st.time_segments.length * 100) / st.time_segments.length : ℕ),
                 download_btn_enabled := true },
       (plannedCmds st).map Effect.runCmd) := by
  unfold start_download
  rw [if_neg (by rintro (hc | hc); exacts [h1 hc, h2 hc]), if_neg h3]
  dsimp only
  rw [runSegs_all_ok runner _ st.time_segments 1 hok]
  rfl

theorem start_download_failure (st : AppState) (runner : List String → ℤ × String)
    (h1 : st.url_input ≠ "") (h2 : st.time_segments ≠ [])
    (h3 : ¬(st.resolution_mode = "custom" ∧ st.custom_format_index = -1))
    (k : ℕ) (hk : k < (plannedCmds st).length)
    (htake : ∀ c ∈ (plannedCmds st).take k, (runner c).1 = 0)
    (hfail : (runner ((plannedCmds st).getD k [])).1 ≠ 0) :
    start_download st runner =
      ({ st with status_label := "Error: " ++ (runner ((plannedCmds st).getD k [])).2,
                 progress := ((k * 100) / st.time_segments.length : ℕ),
                 download_btn_enabled := true },
       ((plannedCmds st).take (k + 1)).map Effect.runCmd ++
         [Effect.critical "Download Error" (runner ((plannedCmds st).getD k [])).2]) := by
  have hk' : k < st.time_segments.length := by rwa [plannedCmds_length] at hk
  unfold start_download
  rw [if_neg (by rintro (hc | hc); exacts [h1 hc, h2 hc]), if_neg h3]
  dsimp only
  rw [runSegs_first_fail runner _ st.time_segments 1 k hk' htake hfail]
  rfl

/-- C2: past the guards, start_download invokes the downloader binary
once per committed segment in list order; every invocation exit status is
checked, and the first nonzero status aborts the loop, so exactly the
commands up to and including the failing one are invoked. -/
theorem c2_invocations_per_segment (st : AppState) (runner : List String → ℤ × String)
    (h1 : st.url_input ≠ "") (h2 : st.time_segments ≠ [])
    (h3 : ¬(st.resolution_mode = "custom" ∧ st.custom_format_index = -1)) :
    ((∀ c ∈ plannedCmds st, (runner c).1 = 0) →
      invokedCmds (start_download st runner).2 = plannedCmds st)
  ∧ (∀ k, k < (plannedCmds st).length →
      (∀ c ∈ (plannedCmds st).take k, (runner c).1 = 0) →
      (runner ((plannedCmds st).getD k [])).1 ≠ 0 →
      invokedCmds (start_download st runner).2 = (plannedCmds st).take (k + 1)) := by
  constructor
  · intro hok
    rw [start_download_success st runner h1 h2 h3 hok]
    exact invokedCmds_map_runCmd _
  · intro k hk htake hfail
    rw [start_download_failure st runner h1 h2 h3 k hk htake hfail]
    rw [invokedCmds_append, invokedCmds_map_runCmd]
    have hnil : invokedCmds
        [Effect.critical "Download Error" (runner ((plannedCmds st).getD k [])).2] = [] := rfl
    rw [hnil, List.append_nil]

/-- State used to evaluate the download claims: a URL and one committed
segment. -/
def dlState : AppState :=
  { initState "/downloads" with
    url_input := "https://www.youtube.com/watch?v=abc"
    time_segments := [(1, 2)]
    segments_list := [segText 1 2] }

/-- Runner whose every invocation succeeds with empty stderr. -/
def okRunner : List String → ℤ × String := fun _ => (0, "")

theorem c2_invocations_per_segment_witness :
    dlState.url_input ≠ "" ∧
    invokedCmds (start_download dlState okRunner).2 = plannedCmds dlState :=
  ⟨by decide,
   (c2_invocations_per_segment dlState okRunner (by decide) (by decide) (by decide)).1
     (fun c _ => rfl)⟩

/-- C6: the download run is all or nothing with respect to the segment
list: when every invocation exits 0, the internal and displayed segment
lists are cleared and the status reads Download completed; when one exits
nonzero, both lists are left unchanged, an error status and dialog are
produced; in both cases the download button ends up re-enabled. -/
theorem c6_all_or_nothing (st : AppState) (runner : List String → ℤ × String)
    (h1 : st.url_input ≠ "") (h2 : st.time_segments ≠ [])
    (h3 : ¬(st.resolution_mode = "custom" ∧ st.custom_format_index = -1)) :
    ((∀ c ∈ plannedCmds st, (runner c).1 = 0) →
      (start_download st runner).1.time_segments = []
      ∧ (start_download st runner).1.segments_list = []
      ∧ (start_download st runner).1.status_label = "Download completed"
      ∧ (start_download st runner).1.download_btn_enabled = true)
  ∧ (∀ k, k < (plannedCmds st).length →
      (∀ c ∈ (plannedCmds st).take k, (runner c).1 = 0) →
      (runner ((plannedCmds st).getD k [])).1 ≠ 0 →
      (start_download st runner).1.time_segments = st.time_segments
      ∧ (start_download st runner).1.segments_list = st.segments_list
      ∧ (start_download st runner).1.status_label =
          "Error: " ++ (runner ((plannedCmds st).getD k [])).2
      ∧ Effect.critical "Download Error" (runner ((plannedCmds st).getD k [])).2
          ∈ (start_download st runner).2
      ∧ (start_download st runner).1.download_btn_enabled = true) := by
  constructor
  · intro hok
    rw [start_download_success st runner h1 h2 h3 hok]
    exact ⟨rfl, rfl, rfl, rfl⟩
  · intro k hk htake hfail
    rw [start_download_failure st runner h1 h2 h3 k hk htake hfail]
    refine ⟨rfl, rfl, rfl, ?_, rfl⟩
    exact List.mem_append_right _ (List.mem_singleton.mpr rfl)

/-- Runner whose every invocation fails with stderr boom. -/
def failRunner : List String → ℤ × String := fun _ => (1, "boom")

theorem c6_all_or_nothing_witness :
    dlState.time_segments ≠ [] ∧
    ((start_download dlState failRunner).1.time_segments = dlState.time_segments
     ∧ (start_download dlState failRunner).1.segments_list = dlState.segments_list
     ∧ (start_download dlState failRunner).1.status_label =
         "Error: " ++ (failRunner ((plannedCmds dlState).getD 0 [])).2
     ∧ Effect.critical "Download Error" (failRunner ((plannedCmds dlState).getD 0 [])).2
         ∈ (start_download dlState failRunner).2
     ∧ (start_download dlState failRunner).1.download_btn_enabled = true) :=
  ⟨by decide,
   (c6_all_or_nothing dlState failRunner (by decide) (by decide) (by decide)).2 0
     (by rw [plannedCmds_length]; decide) (by simp) (by exact one_ne_zero)⟩

/-! Output template distinctness. -/

theorem mapped_enumFrom_getD {α β : Type} (f : ℕ × α → β) (d : β) (d0 : α) :
    ∀ (l : List α) (i k : ℕ), k < l.length →
      ((List.enumFrom i l).map f).getD k d = f (i + k, l.getD k d0) := by
  intro l
  induction l with
  | nil => intro i k hk; exact absurd hk (by simp)
  | cons x xs ih =>
    intro i k hk
    cases k with
    | zero => simp [List.enumFrom_cons]
    | succ k =>
      simp only [List.enumFrom_cons, List.map_cons, List.getD_cons_succ]
      rw [ih (i + 1) k (by simpa using hk)]
      have hik : i + 1 + k = i + (k + 1) := by omega
      rw [hik]

theorem outputTemplate_data (n : ℕ) :
    ("output" ++ natStr n ++ ".%(ext)s").data =
      ("output".data ++ natChars n) ++ ".%(ext)s".data := by
  rw [String.data_append, String.data_append]
  rfl

theorem outputTemplate_not_abs (n : ℕ) :
    ¬(['/'].isPrefixOf ("output" ++ natStr n ++ ".%(ext)s").data = true) := by
  rw [outputTemplate_data]
  rw [show ("output".data ++ natChars n) ++ ".%(ext)s".data =
      'o' :: ("utput".data ++ natChars n ++ ".%(ext)s".data) from by simp]
  rw [isPrefixOf_cons_ne (by decide)]
  simp

/-- C3: each 1-based segment index idx receives the output template
join(download_dir, output idx .%(ext)s), and distinct indices give
distinct output templates. -/
theorem c3_distinct_output_templates (st : AppState) (k : ℕ)
    (hk : k < st.time_segments.length) :
    (∃ pre, (plannedCmds st).getD k [] =
      pre ++ ["-o", pathJoin st.download_dir ("output" ++ natStr (k + 1) ++ ".%(ext)s")])
  ∧ ∀ (d : String) (i j : ℕ), i ≠ j →
      pathJoin d ("output" ++ natStr i ++ ".%(ext)s") ≠
      pathJoin d ("output" ++ natStr j ++ ".%(ext)s") := by
  constructor
  · rw [show (plannedCmds st).getD k [] = mkCmd st.url_input st.cookies_input
        (formatStrOf st.resolution_mode st.download_type st.custom_format_data)
        st.download_dir (1 + k) (st.time_segments.getD k (0, 0)) from
      mapped_enumFrom_getD _ [] (0, 0) st.time_segments 1 k hk]
    rw [Nat.add_comm 1 k]
    exact ⟨_, rfl⟩
  · intro d i j hij heq
    apply hij
    unfold pathJoin at heq
    rw [if_neg (outputTemplate_not_abs i), if_neg (outputTemplate_not_abs j)] at heq
    have hfile : ("output".data ++ (natStr i).data) ++ ".%(ext)s".data =
        ("output".data ++ (natStr j).data) ++ ".%(ext)s".data := by
      by_cases hd : d = "" ∨ d.data.getLast? = some '/'
      · rw [if_pos hd, if_pos hd] at heq
        have h2 := congrArg String.data heq
        simp only [String.data_append] at h2
        exact List.append_cancel_left h2
      · rw [if_neg hd, if_neg hd] at heq
        have h2 := congrArg String.data heq
        simp only [String.data_append] at h2
        exact List.append_cancel_left h2
    exact natChars_injective
      (List.append_cancel_left (List.append_cancel_right hfile))

theorem c3_distinct_output_templates_witness :
    0 < dlState.time_segments.length ∧
    ((∃ pre, (plannedCmds dlState).getD 0 [] =
      pre ++ ["-o", pathJoin dlState.download_dir ("output" ++ natStr 1 ++ ".%(ext)s")])
    ∧ ∀ (d : String) (i j : ℕ), i ≠ j →
      pathJoin d ("output" ++ natStr i ++ ".%(ext)s") ≠
      pathJoin d ("output" ++ natStr j ++ ".%(ext)s")) :=
  ⟨by decide, c3_distinct_output_templates dlState 0 (by decide)⟩

/-- C4: past its guards and with every invocation succeeding, the
argument vector start_download invokes for each segment (start, end) is
the URL, the cookies option exactly when the cookies input is non-empty,
the download-sections range star start dash end, the format string
determined by resolution mode and download type, and the per-index
output template. -/
theorem c4_command_arguments (st : AppState) (runner : List String → ℤ × String)
    (h1 : st.url_input ≠ "") (h2 : st.time_segments ≠ [])
    (h3 : ¬(st.resolution_mode = "custom" ∧ st.custom_format_index = -1))
    (hok : ∀ c ∈ plannedCmds st, (runner c).1 = 0) :
    invokedCmds (start_download st runner).2 =
      (List.enumFrom 1 st.time_segments).map (fun p =>
        ["yt-dlp", st.url_input]
        ++ (if st.cookies_input ≠ "" then ["--cookies", st.cookies_input] else [])
        ++ ["--download-sections", "*" ++ pyStr p.2.1 ++ "-" ++ pyStr p.2.2]
        ++ ["-f", if st.resolution_mode = "highest" then
              (if st.download_type = "video" then "best[height<=1080]" else "bestaudio")
            else
              (if st.download_type = "video" then st.custom_format_data ++ "+bestaudio/best"
               else st.custom_format_data)]
        ++ ["-o", pathJoin st.download_dir ("output" ++ natStr p.1 ++ ".%(ext)s")]) := by
  rw [start_download_success st runner h1 h2 h3 hok, invokedCmds_map_runCmd]
  rfl

theorem c4_command_arguments_witness :
    dlState.url_input ≠ "" ∧
    invokedCmds (start_download dlState okRunner).2 =
      (List.enumFrom 1 dlState.time_segments).map (fun p =>
        ["yt-dlp", dlState.url_input]
        ++ (if dlState.cookies_input ≠ "" then ["--cookies", dlState.cookies_input] else [])
        ++ ["--download-sections", "*" ++ pyStr p.2.1 ++ "-" ++ pyStr p.2.2]
        ++ ["-f", if dlState.resolution_mode = "highest" then
              (if dlState.download_type = "video" then "best[height<=1080]" else "bestaudio")
            else
              (if dlState.download_type = "video" then
                dlState.custom_format_data ++ "+bestaudio/best"
               else dlState.custom_format_data)]
        ++ ["-o", pathJoin dlState.download_dir ("output" ++ natStr p.1 ++ ".%(ext)s")]) :=
  ⟨by decide,
   c4_command_arguments dlState okRunner (by decide) (by decide) (by decide) (fun c _ => rfl)⟩

/-- C9: deleting a selected display item parses its one-decimal text back
into a pair of times; the parse recovers exactly the one-decimal
roundings, a rounding is the identity precisely on one-decimal values,
so a segment with one-decimal endpoints is removed from the internal
list, while a finer-grained segment is removed from the display yet its
internal entry survives. -/
theorem c9_delete_parse_roundtrip (st : AppState) (s e : ℚ)
    (hmem : (s, e) ∈ st.time_segments) :
    parseSegText (segText s e) = some (round1 s, round1 e)
  ∧ (∀ t : ℚ, round1 t = t ↔ (10 * t).den = 1)
  ∧ ((10 * s).den = 1 → (10 * e).den = 1 →
      ∃ st1, deleteOne st (segText s e) = some st1
        ∧ st1.time_segments = st.time_segments.erase (s, e)
        ∧ st1.segments_list = st.segments_list.erase (segText s e))
  ∧ (¬((10 * s).den = 1 ∧ (10 * e).den = 1) →
      ∃ st1, deleteOne st (segText s e) = some st1
        ∧ (s, e) ∈ st1.time_segments
        ∧ st1.segments_list = st.segments_list.erase (segText s e)) := by
  refine ⟨parseSegText_segText s e, round1_eq_self_iff, ?_, ?_⟩
  · intro hs he
    have hpair : ((round1 s, round1 e) : ℚ × ℚ) = (s, e) := by
      rw [(round1_eq_self_iff s).mpr hs, (round1_eq_self_iff e).mpr he]
    have hdel : deleteOne st (segText s e) = some
        { st with time_segments := st.time_segments.erase (s, e),
                  segments_list := st.segments_list.erase (segText s e) } := by
      unfold deleteOne
      rw [parseSegText_segText s e]
      dsimp only
      rw [hpair, if_pos hmem]
    exact ⟨_, hdel, rfl, rfl⟩
  · intro hne
    have hpair : ((round1 s, round1 e) : ℚ × ℚ) ≠ (s, e) := by
      intro hc
      injection hc with hc1 hc2
      exact hne ⟨(round1_eq_self_iff s).mp hc1, (round1_eq_self_iff e).mp hc2⟩
    have hdel : deleteOne st (segText s e) = some
        { st with
          time_segments :=
            if ((round1 s, round1 e) : ℚ × ℚ) ∈ st.time_segments then
              st.time_segments.erase (round1 s, round1 e)
            else st.time_segments
          segments_list := st.segments_list.erase (segText s e) } := by
      unfold deleteOne
      rw [parseSegText_segText s e]
    refine ⟨_, hdel, ?_, rfl⟩
    dsimp only
    split
    · exact (List.mem_erase_of_ne (fun hc => hpair hc.symm)).mpr hmem
    · exact hmem

/-- State used to evaluate the delete claim: one committed segment with
one-decimal endpoints. -/
def deleteState : AppState :=
  { initState "/downloads" with
    time_segments := [((1 : ℚ) / 2, (3 : ℚ) / 2)]
    segments_list := [segText ((1 : ℚ) / 2) ((3 : ℚ) / 2)] }

theorem c9_delete_parse_roundtrip_witness :
    ((1 : ℚ) / 2, (3 : ℚ) / 2) ∈ deleteState.time_segments ∧
    (parseSegText (segText ((1 : ℚ) / 2) ((3 : ℚ) / 2)) =
        some (round1 ((1 : ℚ) / 2), round1 ((3 : ℚ) / 2))
    ∧ (∀ t : ℚ, round1 t = t ↔ (10 * t).den = 1)
    ∧ ((10 * ((1 : ℚ) / 2)).den = 1 → (10 * ((3 : ℚ) / 2)).den = 1 →
        ∃ st1, deleteOne deleteState (segText ((1 : ℚ) / 2) ((3 : ℚ) / 2)) = some st1
          ∧ st1.time_segments = deleteState.time_segments.erase ((1 : ℚ) / 2, (3 : ℚ) / 2)
          ∧ st1.segments_list =
              deleteState.segments_list.erase (segText ((1 : ℚ) / 2) ((3 : ℚ) / 2)))
    ∧ (¬((10 * ((1 : ℚ) / 2)).den = 1 ∧ (10 * ((3 : ℚ) / 2)).den = 1) →
        ∃ st1, deleteOne deleteState (segText ((1 : ℚ) / 2) ((3 : ℚ) / 2)) = some st1
          ∧ ((1 : ℚ) / 2, (3 : ℚ) / 2) ∈ st1.time_segments
          ∧ st1.segments_list =
              deleteState.segments_list.erase (segText ((1 : ℚ) / 2) ((3 : ℚ) / 2)))) :=
  ⟨List.mem_singleton.mpr rfl,
   c9_delete_parse_roundtrip deleteState ((1 : ℚ) / 2) ((3 : ℚ) / 2)
     (List.mem_singleton.mpr rfl)⟩

end YTsectionDL
